import Mathlib

/-!
Verification development for the MAVSDK command-and-transfer protocol engine.

The repository ships the integration test
`src/integration_tests/mission_raw_mission_changed.cpp` and the public header
`src/plugins/action/include/plugins/action/action.h`; the protocol engine
itself (command protocol, mission transfer protocol, mission-changed
notification, result/callback bridge) is not part of the source tree here,
so the engine is modelled from the specification (`spec.md`).  Definitions
whose doc comment starts with `Modelled from the spec:` embed that missing
engine, faithful to the specification's words.

Modelling conventions:
* single-precision floating-point parameter slots are carried as their raw
  32-bit patterns (`Nat`), so "bit-identical" is plain equality and the NaN
  "don't care" sentinel is the quiet-NaN bit pattern, which is an ordinary
  value that is never collapsed to zero;
* the serialized dispatch context of spec section 5 makes every state
  transition atomic, so the engine is a pure step function on explicit
  state, driven by event traces;
* the transport is modelled by a transcript (`wireLog`) of sent messages,
  and callback resolutions are returned as explicit values.
-/

namespace Mavsdk

/-- The uniform result taxonomy of spec section 7. -/
inductive Result where
  | Success
  | NoSystem
  | ConnectionError
  | Busy
  | CommandDenied
  | InvalidSequence
  | NoSpace
  | Timeout
  | InvalidArgument
  | Cancelled
  | Unknown
deriving DecidableEq, Repr

/-- A raw mission item as in `MissionRaw::MavlinkMissionItemInt` and the
wire-level field list of spec section 6: sequence index, frame byte, command
code, current/autocontinue flags, four float parameters plus x/y/z, and the
list-type discriminant.  Float slots (`param1..param4`, `z`) are raw 32-bit
patterns; `x`/`y` carry scaled-integer latitude/longitude. -/
structure MissionItem where
  seq : Nat
  frame : Nat
  command : Nat
  current : Nat
  autocontinue : Nat
  param1 : Nat
  param2 : Nat
  param3 : Nat
  param4 : Nat
  x : Int
  y : Int
  z : Nat
  mission_type : Nat
deriving DecidableEq, Repr

/-- The quiet-NaN single-precision bit pattern, the "don't care" sentinel of
spec section 6.  As a raw bit pattern it round-trips like any other value. -/
def nanBits : Nat := 0x7FC00000

/-- Messages the engine hands to the non-blocking link transport.  The
`wireLog` transcript of these is the "transport send state". -/
inductive WireMsg where
  | commandLong (cmd : Nat)
  | missionCount (n : Nat)
  | missionItem (it : MissionItem)
  | missionRequestItem (seq : Nat)
  | missionRequestList
deriving DecidableEq, Repr

/-- Connectivity flags offered by the system handle (spec section 6):
`peer_connected` and `peer_has_autopilot`. -/
structure SystemState where
  peerConnected : Bool
  hasAutopilot : Bool
deriving DecidableEq, Repr

/-- Spec section 9 baseline retry bound: three retries. -/
def maxRetries : Nat := 3

/-! ## Command protocol (spec section 4.1) -/

/-- Peer acknowledgment categories for a command (spec section 4.1):
accept / deny / unsupported / temporarily-rejected. -/
inductive CmdAckCode where
  | accepted
  | denied
  | unsupported
  | temporarilyRejected
deriving DecidableEq, Repr

/-- Modelled from the spec: the command protocol maps peer
accept/deny/unsupported/temporarily-rejected codes to
Success/CommandDenied/Unknown/Busy. -/
def mapCmdAck : CmdAckCode → Result
  | CmdAckCode.accepted => Result.Success
  | CmdAckCode.denied => Result.CommandDenied
  | CmdAckCode.unsupported => Result.Unknown
  | CmdAckCode.temporarilyRejected => Result.Busy

/-- State of one pending command request: either still pending with a number
of retries left, or resolved with its final result. -/
inductive CmdState where
  | pending (retriesLeft : Nat)
  | resolved (r : Result)
deriving DecidableEq, Repr

/-- Events observed by a pending command request on the dispatch context:
a matching acknowledgment, or a timer expiration. -/
inductive CmdEvent where
  | ack (code : CmdAckCode)
  | timeout
deriving DecidableEq, Repr

/-- Modelled from the spec: one dispatch-context step of the command
protocol.  Returns the new state together with the list of callback
resolutions emitted by the step.  A matching ack resolves with the mapped
result; a timeout retries while the retry budget lasts and resolves
`Timeout` on exhaustion; a resolved request ignores further events, so late
or duplicate acks never re-fire the callback. -/
def cmdStep : CmdState → CmdEvent → CmdState × List Result
  | CmdState.pending _, CmdEvent.ack c =>
      (CmdState.resolved (mapCmdAck c), [mapCmdAck c])
  | CmdState.pending 0, CmdEvent.timeout =>
      (CmdState.resolved Result.Timeout, [Result.Timeout])
  | CmdState.pending (n + 1), CmdEvent.timeout =>
      (CmdState.pending n, [])
  | CmdState.resolved r, _ => (CmdState.resolved r, [])

/-- Run the command protocol over a trace of events, accumulating every
callback resolution emitted along the way. -/
def cmdRun : CmdState → List CmdEvent → CmdState × List Result
  | st, [] => (st, [])
  | st, ev :: rest =>
      match cmdStep st ev with
      | (st2, out) =>
          match cmdRun st2 rest with
          | (st3, outs) => (st3, out ++ outs)

/-- Outcome of issuing a command: either a pending request was created (a
message went out), or the call failed immediately with a result and no
network I/O. -/
inductive CmdStart where
  | started (st : CmdState)
  | failed (r : Result)
deriving DecidableEq, Repr

/-- Modelled from the spec: issuing a command (spec section 4.1).  If no
peer is connected or the autopilot-present flag is unset, the call fails
immediately with `NoSystem` and nothing is sent; otherwise the encoded
command goes to the transport and a pending request is created with the
retry budget. -/
def executeCommand (sys : SystemState) (cmd : Nat) (retries : Nat) :
    List WireMsg × CmdStart :=
  if sys.peerConnected && sys.hasAutopilot then
    ([WireMsg.commandLong cmd], CmdStart.started (CmdState.pending retries))
  else
    ([], CmdStart.failed Result.NoSystem)

/-- Modelled from the spec: the result/callback bridge (spec section 4.4).
The blocking variant records the result delivered to the async callback in
a one-shot slot and returns it once released; while the callback has not
fired the caller is still blocked, modelled by `none`. -/
def blockingExecute (retries : Nat) (tr : List CmdEvent) : Option Result :=
  (cmdRun (CmdState.pending retries) tr).snd.head?

/-! ## Mission transfer protocol (spec section 4.2) -/

/-- Modelled from the spec: navigation items are the MAV_CMD_NAV_* family;
in the MAVLink numbering those command codes lie below 95
(`MAV_CMD_NAV_WAYPOINT` is 16, the speed change `MAV_CMD_DO_CHANGE_SPEED`
is 178). -/
def isNavCommand (cmd : Nat) : Bool := cmd < 95

/-- Check that the sequence indices of the items are exactly `k, k+1, ...`
in order; called with `k = 0` this is "indices are exactly 0..N-1". -/
def seqsInOrder : List MissionItem → Nat → Bool
  | [], _ => true
  | it :: rest, k => it.seq == k && seqsInOrder rest (k + 1)

/-- Number of navigation items carrying the "current" flag. -/
def countCurrentNav (items : List MissionItem) : Nat :=
  (items.filter (fun it => isNavCommand it.command && it.current != 0)).length

/-- Modelled from the spec: local upload validation (spec section 4.2 step
1): the list is non-empty, sequence indices are exactly 0..N-1 in order,
and exactly one "current" flag is set among navigation items. -/
def validateMissionItems (items : List MissionItem) : Bool :=
  !items.isEmpty && seqsInOrder items 0 && countCurrentNav items == 1

/-- Peer acknowledgment categories terminating an upload (spec section 4.2
step 5): accept / reject / no-space / invalid-sequence. -/
inductive MissionAckCode where
  | accepted
  | rejected
  | noSpace
  | invalidSequence
deriving DecidableEq, Repr

/-- Modelled from the spec: final-ack mapping of the mission transfer
protocol: accept gives Success, the explicit peer rejections map to the
section 7 taxonomy. -/
def mapMissionAck : MissionAckCode → Result
  | MissionAckCode.accepted => Result.Success
  | MissionAckCode.rejected => Result.CommandDenied
  | MissionAckCode.noSpace => Result.NoSpace
  | MissionAckCode.invalidSequence => Result.InvalidSequence

/-- Download sub-state: waiting for the peer's item count, or receiving
item `nextIndex` of `total` with the ordered accumulation so far. -/
inductive DownState where
  | awaitingCount
  | receiving (total : Nat) (nextIndex : Nat) (acc : List MissionItem)
deriving DecidableEq, Repr

/-- A transfer session (spec section 3): at most one exists per peer.  An
upload session holds the validated item list serving as the index-keyed
response table; a download session holds its progress.  `retriesLeft` is
the per-wait retry budget of the timer guarding the next expected
message — clearing the session tears that timer down. -/
inductive Session where
  | up (items : List MissionItem) (retriesLeft : Nat)
  | down (dstate : DownState) (retriesLeft : Nat)
deriving DecidableEq, Repr

/-- Modelled from the spec: the whole per-peer engine state — the optional
transfer session (concurrency guard), the transcript of transport sends,
the `ChangeNotificationState` signature, the observer list of
mission-changed subscribers, and the transcript of subscriber invocations
(each entry is the invoked subscriber's id, in invocation order). -/
structure MissionEngine where
  session : Option Session
  wireLog : List WireMsg
  lastSig : Option Nat
  subscribers : List Nat
  notifLog : List Nat
deriving DecidableEq, Repr

/-- The engine before any call: idle, nothing sent, no signature observed,
no subscribers, no notification delivered. -/
def initEngine : MissionEngine :=
  { session := none, wireLog := [], lastSig := none,
    subscribers := [], notifLog := [] }

/-- Modelled from the spec: the mission signature kept in
`ChangeNotificationState` — item count plus a hash of the items. -/
def missionSig (items : List MissionItem) : Nat :=
  items.length +
    items.foldl (fun h it => h * 31 + it.seq + it.command) 7

/-- Modelled from the spec: `subscribe_mission_changed` appends to the
plain observer list; no subscriber is invoked by the act of subscribing. -/
def subscribeMissionChanged (e : MissionEngine) (sub : Nat) : MissionEngine :=
  { e with subscribers := e.subscribers ++ [sub] }

/-- Modelled from the spec: starting an upload (spec section 4.2 steps 1-2
and the concurrency guard).  A second call while a session is active fails
fast with `Busy`, unqueued and engine untouched; local validation failure
fails `InvalidArgument` with no network contact; otherwise the item count
goes out and the upload session is created. -/
def startUpload (e : MissionEngine) (items : List MissionItem) :
    MissionEngine × Option Result :=
  match e.session with
  | some _ => (e, some Result.Busy)
  | none =>
      if validateMissionItems items then
        ({ e with session := some (Session.up items maxRetries),
                  wireLog := e.wireLog ++ [WireMsg.missionCount items.length] },
         none)
      else
        (e, some Result.InvalidArgument)

/-- Modelled from the spec: starting a download — same concurrency guard,
then the list request goes out and the download session awaits the count. -/
def startDownload (e : MissionEngine) : MissionEngine × Option Result :=
  match e.session with
  | some _ => (e, some Result.Busy)
  | none =>
      ({ e with session := some (Session.down DownState.awaitingCount maxRetries),
                wireLog := e.wireLog ++ [WireMsg.missionRequestList] },
       none)

/-- Modelled from the spec: answering an item request during an upload
(spec section 4.2 step 3).  The item list is the index-keyed response
table: any in-range request — first or duplicate — is answered with the
item at that index and restarts the wait timer; requests outside an active
upload session, or out of range, change nothing and never abort. -/
def handleItemRequest (e : MissionEngine) (s : Nat) : MissionEngine :=
  match e.session with
  | some (Session.up items _) =>
      match items[s]? with
      | some it =>
          { e with session := some (Session.up items maxRetries),
                   wireLog := e.wireLog ++ [WireMsg.missionItem it] }
      | none => e
  | _ => e

/-- Modelled from the spec: the final peer acknowledgment of an upload
(spec section 4.2 steps 5-6).  The session is destroyed and the callback
resolved with the mapped result; on acceptance the engine bumps
`ChangeNotificationState` and fires the change notification, invoking
every subscriber once. -/
def handleUploadAck (e : MissionEngine) (code : MissionAckCode) :
    MissionEngine × Option Result :=
  match e.session with
  | some (Session.up items _) =>
      match code with
      | MissionAckCode.accepted =>
          ({ e with session := none,
                    lastSig := some (missionSig items),
                    notifLog := e.notifLog ++ e.subscribers },
           some Result.Success)
      | c => ({ e with session := none }, some (mapMissionAck c))
  | _ => (e, none)

/-- Modelled from the spec: an unsolicited peer update signal (spec section
4.3 trigger (b)).  A signature equal to the stored
`ChangeNotificationState` is suppressed; a differing one updates the state
and invokes every subscriber once. -/
def handleUnsolicited (e : MissionEngine) (sig : Nat) : MissionEngine :=
  if e.lastSig == some sig then e
  else { e with lastSig := some sig, notifLog := e.notifLog ++ e.subscribers }

/-- Iterate `handleUnsolicited` with a fixed signature. -/
def iterUnsolicited (e : MissionEngine) (sig : Nat) : Nat → MissionEngine
  | 0 => e
  | k + 1 => iterUnsolicited (handleUnsolicited e sig) sig k

/-- Modelled from the spec: the peer's item count answering a download
request.  Zero items complete immediately; otherwise the engine requests
index 0 and starts receiving. -/
def handleDownloadCount (e : MissionEngine) (n : Nat) :
    MissionEngine × Option (Result × List MissionItem) :=
  match e.session with
  | some (Session.down DownState.awaitingCount _) =>
      if n = 0 then ({ e with session := none }, some (Result.Success, []))
      else
        ({ e with session := some (Session.down (DownState.receiving n 0 []) maxRetries),
                  wireLog := e.wireLog ++ [WireMsg.missionRequestItem 0] },
         none)
  | _ => (e, none)

/-- Modelled from the spec: one received item during a download (spec
section 4.2, download direction): indices are requested sequentially, the
expected item is appended to the ordered accumulation, completion happens
when the accumulated count equals the requested total, and anything
unexpected is ignored pending the per-index retry timer. -/
def handleDownloadItem (e : MissionEngine) (it : MissionItem) :
    MissionEngine × Option (Result × List MissionItem) :=
  match e.session with
  | some (Session.down (DownState.receiving total k acc) _) =>
      if it.seq == k then
        if k + 1 == total then
          ({ e with session := none }, some (Result.Success, acc ++ [it]))
        else
          ({ e with session := some (Session.down (DownState.receiving total (k + 1) (acc ++ [it])) maxRetries),
                    wireLog := e.wireLog ++ [WireMsg.missionRequestItem (k + 1)] },
           none)
      else (e, none)
  | _ => (e, none)

/-- Modelled from the spec: explicit cancellation via the higher-level
clear-mission operation (spec section 4.2).  The session — and with it all
pending per-item timers — is torn down and the outstanding callback is
resolved with `Cancelled`; with no session the call is a no-op. -/
def cancelTransfer (e : MissionEngine) : MissionEngine × Option Result :=
  match e.session with
  | some _ => ({ e with session := none }, some Result.Cancelled)
  | none => (e, none)

/-- Modelled from the spec: a wait-timer expiration (spec sections 4.1-4.2
retry policy): while retries remain the wait continues with a decremented
budget; exhaustion fails the whole transfer with `Timeout` and destroys
the session. -/
def timeoutTick (e : MissionEngine) : MissionEngine × Option Result :=
  match e.session with
  | some s =>
      match s with
      | Session.up items 0 => ({ e with session := none }, some Result.Timeout)
      | Session.up items (r + 1) =>
          ({ e with session := some (Session.up items r) }, none)
      | Session.down d 0 => ({ e with session := none }, some Result.Timeout)
      | Session.down d (r + 1) =>
          ({ e with session := some (Session.down d r) }, none)
  | none => (e, none)

/-! ## Peer model and closed-loop simulation -/

/-- The peer's stored mission: an index-keyed table from sequence index to
item, as kept by the remote autopilot during an upload. -/
def PeerStore : Type := List (Nat × MissionItem)

/-- Storing a received item replaces any entry with the same sequence index
(index-keyed table semantics), so duplicates never accumulate. -/
def peerStore (p : List (Nat × MissionItem)) (it : MissionItem) :
    List (Nat × MissionItem) :=
  (it.seq, it) :: p.filter (fun kv => !(kv.fst == it.seq))

/-- Look an index up in the peer's stored mission. -/
def peerLookup (p : List (Nat × MissionItem)) (i : Nat) : Option MissionItem :=
  (p.find? (fun kv => kv.fst == i)).map Prod.snd

/-- The peer processes the engine's transport sends, storing every mission
item it is handed. -/
def peerIngest (p : List (Nat × MissionItem)) (msgs : List WireMsg) :
    List (Nat × MissionItem) :=
  msgs.foldl
    (fun acc m =>
      match m with
      | WireMsg.missionItem it => peerStore acc it
      | _ => acc)
    p

/-- Drive a download session to completion against a peer that answers
every sequential item request from its stored mission; `fuel` bounds the
number of steps, `none` meaning the simulation was cut short. -/
def downloadSteps : Nat → List (Nat × MissionItem) → MissionEngine →
    Option (Result × List MissionItem)
  | 0, _, _ => none
  | fuel + 1, p, e =>
      match e.session with
      | some (Session.down (DownState.receiving _ k _) _) =>
          match peerLookup p k with
          | some it =>
              match handleDownloadItem e it with
              | (_, some res) => some res
              | (e2, none) => downloadSteps fuel p e2
          | none => none
      | _ => none

/-- Download a mission from a peer answering out of its stored table: start
the session, hand the engine the peer's item count, then serve each
sequential item request from the store. -/
def downloadFrom (p : List (Nat × MissionItem)) (e : MissionEngine) :
    Option (Result × List MissionItem) :=
  match startDownload e with
  | (e4, none) =>
      match handleDownloadCount e4 p.length with
      | (e5, none) => downloadSteps (p.length + 1) p e5
      | (_, some res) => some res
  | (_, some _) => none

/-- Closed-loop round trip (spec section 8, round-trip law): upload the
items, letting the peer request them in the arbitrary order `reqOrder` and
store what it is sent from the wire, acknowledge acceptance, then download
from that peer: request the count, then every index sequentially. -/
def roundTrip (items : List MissionItem) (reqOrder : List Nat) :
    Option (Result × List MissionItem) :=
  match startUpload initEngine items with
  | (_, some _) => none
  | (e1, none) =>
      match handleUploadAck (reqOrder.foldl handleItemRequest e1) MissionAckCode.accepted with
      | (e3, some Result.Success) => downloadFrom (peerIngest [] e3.wireLog) e3
      | _ => none

/-- The items an upload engine hands out while serving the request order:
each in-range request is answered with the item at that index. -/
def answeredItems (items : List MissionItem) (reqOrder : List Nat) :
    List MissionItem :=
  reqOrder.filterMap (fun s => items[s]?)

/-- The sequence indices present in the peer's stored mission. -/
def peerKeys (p : List (Nat × MissionItem)) : List Nat := p.map Prod.fst

/-! ## Dispatch-context event traces -/

/-- Everything the dispatch context can process for one peer: public calls
enqueued from other threads, inbound peer messages, timer expirations.
`connect` is the heartbeat-based "peer present" signal, which the mission
engine only consumes as a flag. -/
inductive MEvent where
  | subscribe (sub : Nat)
  | connect
  | uploadCall (items : List MissionItem)
  | downloadCall
  | itemRequest (seq : Nat)
  | uploadAck (code : MissionAckCode)
  | downloadCount (n : Nat)
  | downloadItem (it : MissionItem)
  | unsolicited (sig : Nat)
  | cancel
  | timerFire
deriving DecidableEq, Repr

/-- The events that can constitute a logical mission change (spec section
4.3 triggers): a final upload acknowledgment or an unsolicited peer update
signal.  Everything else never fans out to subscribers. -/
def isChangeTrigger : MEvent → Bool
  | MEvent.uploadAck _ => true
  | MEvent.unsolicited _ => true
  | _ => false

/-- One dispatch-context step of the whole mission engine, discarding the
callback resolutions (they are studied by the per-operation theorems). -/
def mstep (e : MissionEngine) : MEvent → MissionEngine
  | MEvent.subscribe sub => subscribeMissionChanged e sub
  | MEvent.connect => e
  | MEvent.uploadCall items => (startUpload e items).fst
  | MEvent.downloadCall => (startDownload e).fst
  | MEvent.itemRequest s => handleItemRequest e s
  | MEvent.uploadAck c => (handleUploadAck e c).fst
  | MEvent.downloadCount n => (handleDownloadCount e n).fst
  | MEvent.downloadItem it => (handleDownloadItem e it).fst
  | MEvent.unsolicited sig => handleUnsolicited e sig
  | MEvent.cancel => (cancelTransfer e).fst
  | MEvent.timerFire => (timeoutTick e).fst

/-! ## Concrete mission used by the witnesses -/

/-- A navigation waypoint like the test's first item: frame 6
(`MAV_FRAME_GLOBAL_RELATIVE_ALT_INT`), command 16 (`MAV_CMD_NAV_WAYPOINT`),
the "current" flag set, a NaN "don't care" yaw in `param4`, and scaled
integer latitude/longitude. -/
def witItem0 : MissionItem :=
  { seq := 0, frame := 6, command := 16, current := 1, autocontinue := 1,
    param1 := 1, param2 := 1, param3 := 1, param4 := nanBits,
    x := 473981700, y := 85456490, z := 5, mission_type := 0 }

/-- A speed-change item like the test's second item: frame 2
(`MAV_FRAME_MISSION`), command 178 (`MAV_CMD_DO_CHANGE_SPEED`), with a NaN
sentinel in `z`. -/
def witItem1 : MissionItem :=
  { seq := 1, frame := 2, command := 178, current := 0, autocontinue := 1,
    param1 := 1, param2 := 4, param3 := 3, param4 := 0,
    x := 0, y := 0, z := nanBits, mission_type := 0 }

/-- The two-item witness mission. -/
def witItems : List MissionItem := [witItem0, witItem1]

/-- An engine holding an active upload session over the witness mission, as
after `startUpload initEngine witItems`. -/
def witEngineUp : MissionEngine :=
  { session := some (Session.up witItems maxRetries),
    wireLog := [WireMsg.missionCount 2],
    lastSig := none, subscribers := [7, 9], notifLog := [] }

/-! ## Theorems -/

/-! ### Command protocol helper lemmas (placed after all definitions) -/

/-- A resolved request absorbs every further event and emits nothing. -/
theorem cmdRun_resolved (r : Result) (tr : List CmdEvent) :
    cmdRun (CmdState.resolved r) tr = (CmdState.resolved r, []) := by
  induction tr with
  | nil => rfl
  | cons ev rest ih => simp [cmdRun, cmdStep, ih]

/-- Dichotomy: a run from a pending state either stays pending having
emitted nothing, or is resolved having emitted exactly its one result. -/
theorem cmdRun_pending_cases (tr : List CmdEvent) :
    ∀ n, (∃ m, cmdRun (CmdState.pending n) tr = (CmdState.pending m, [])) ∨
      (∃ r, cmdRun (CmdState.pending n) tr = (CmdState.resolved r, [r])) := by
  induction tr with
  | nil =>
      intro n
      exact Or.inl ⟨n, rfl⟩
  | cons ev rest ih =>
      intro n
      cases ev with
      | ack c =>
          refine Or.inr ⟨mapCmdAck c, ?_⟩
          simp [cmdRun, cmdStep, cmdRun_resolved]
      | timeout =>
          cases n with
          | zero =>
              refine Or.inr ⟨Result.Timeout, ?_⟩
              simp [cmdRun, cmdStep, cmdRun_resolved]
          | succ k =>
              rcases ih k with ⟨m, hm⟩ | ⟨r, hr⟩
              · exact Or.inl ⟨m, by simp [cmdRun, cmdStep, hm]⟩
              · exact Or.inr ⟨r, by simp [cmdRun, cmdStep, hr]⟩

/-- A trace longer than the remaining retry budget always resolves. -/
theorem cmdRun_long_trace_resolves (tr : List CmdEvent) :
    ∀ n, n + 1 ≤ tr.length →
      ∃ r, cmdRun (CmdState.pending n) tr = (CmdState.resolved r, [r]) := by
  induction tr with
  | nil =>
      intro n h
      exact absurd h (by simp)
  | cons ev rest ih =>
      intro n h
      cases ev with
      | ack c =>
          refine ⟨mapCmdAck c, ?_⟩
          simp [cmdRun, cmdStep, cmdRun_resolved]
      | timeout =>
          cases n with
          | zero =>
              refine ⟨Result.Timeout, ?_⟩
              simp [cmdRun, cmdStep, cmdRun_resolved]
          | succ k =>
              have hk : k + 1 ≤ rest.length := by
                simp only [List.length_cons] at h
                omega
              rcases ih k hk with ⟨r, hr⟩
              exact ⟨r, by simp [cmdRun, cmdStep, hr]⟩

/-! ## Helper lemmas for the round-trip law -/

/-- In-order sequence indices pin down every item's `seq` field. -/
theorem seqsInOrder_seq_eq (items : List MissionItem) :
    ∀ k j it, seqsInOrder items k = true → items[j]? = some it →
      it.seq = k + j := by
  induction items with
  | nil =>
      intro k j it _ hget
      simp at hget
  | cons a rest ih =>
      intro k j it hord hget
      simp only [seqsInOrder, Bool.and_eq_true, beq_iff_eq] at hord
      cases j with
      | zero =>
          simp only [List.getElem?_cons_zero, Option.some.injEq] at hget
          subst hget
          omega
      | succ j' =>
          simp only [List.getElem?_cons_succ] at hget
          have := ih (k + 1) j' it hord.2 hget
          omega

/-- Answering a request sends the item at the requested index and keeps the
upload session alive with a restarted wait timer. -/
theorem handleItemRequest_hit (e : MissionEngine) (items : List MissionItem)
    (r s : Nat) (it : MissionItem) (hs : e.session = some (Session.up items r))
    (hget : items[s]? = some it) :
    handleItemRequest e s =
      { e with session := some (Session.up items maxRetries),
               wireLog := e.wireLog ++ [WireMsg.missionItem it] } := by
  simp [handleItemRequest, hs, hget]

/-- An out-of-range request changes nothing. -/
theorem handleItemRequest_miss (e : MissionEngine) (items : List MissionItem)
    (r s : Nat) (hs : e.session = some (Session.up items r))
    (hget : items[s]? = none) :
    handleItemRequest e s = e := by
  simp [handleItemRequest, hs, hget]

/-- Serving a whole request order: the session survives, exactly the
answered items go to the transport, and the notification state is
untouched. -/
theorem foldl_handleItemRequest (items : List MissionItem) :
    ∀ (reqOrder : List Nat) (e : MissionEngine) (r : Nat),
      e.session = some (Session.up items r) →
      ∃ r2,
        (reqOrder.foldl handleItemRequest e).session
            = some (Session.up items r2) ∧
        (reqOrder.foldl handleItemRequest e).wireLog
            = e.wireLog ++ (answeredItems items reqOrder).map WireMsg.missionItem ∧
        (reqOrder.foldl handleItemRequest e).lastSig = e.lastSig ∧
        (reqOrder.foldl handleItemRequest e).subscribers = e.subscribers ∧
        (reqOrder.foldl handleItemRequest e).notifLog = e.notifLog := by
  intro reqOrder
  induction reqOrder with
  | nil =>
      intro e r hs
      exact ⟨r, hs, by simp [answeredItems], rfl, rfl, rfl⟩
  | cons s rest ih =>
      intro e r hs
      cases hget : items[s]? with
      | none =>
          have hstep : handleItemRequest e s = e :=
            handleItemRequest_miss e items r s hs hget
          rcases ih e r hs with ⟨r2, h1, h2, h3, h4, h5⟩
          refine ⟨r2, ?_, ?_, ?_, ?_, ?_⟩ <;>
            simp [List.foldl_cons, hstep, answeredItems, hget, h1, h2, h3, h4, h5]
      | some it =>
          have hstep := handleItemRequest_hit e items r s it hs hget
          have hsession :
              (handleItemRequest e s).session = some (Session.up items maxRetries) := by
            rw [hstep]
          rcases ih (handleItemRequest e s) maxRetries hsession with
            ⟨r2, h1, h2, h3, h4, h5⟩
          refine ⟨r2, ?_, ?_, ?_, ?_, ?_⟩ <;>
            rw [List.foldl_cons] <;>
            simp only [hstep] at h1 h2 h3 h4 h5 ⊢ <;>
            simp [h1, h2, h3, h4, h5, answeredItems, hget]

/-- Every answered item sits at its own sequence index of the validated
list. -/
theorem answeredItems_canonical (items : List MissionItem)
    (reqOrder : List Nat) (hord : seqsInOrder items 0 = true) :
    ∀ it ∈ answeredItems items reqOrder, items[it.seq]? = some it := by
  intro it hmem
  rcases List.mem_filterMap.mp hmem with ⟨s, _, hget⟩
  have hseq : it.seq = 0 + s := seqsInOrder_seq_eq items 0 s it hord hget
  rw [hseq]
  simpa using hget

/-- Filtering out one key commutes with taking keys. -/
theorem peerKeys_filter (p : List (Nat × MissionItem)) (a : Nat) :
    peerKeys (p.filter (fun kv => !(kv.fst == a)))
      = (peerKeys p).filter (fun k => !(k == a)) := by
  induction p with
  | nil => rfl
  | cons kv rest ih =>
      cases h : (kv.fst == a) <;>
        simp [peerKeys, List.filter_cons, h, ih] <;>
        simpa [peerKeys] using ih

/-- Keys after a store: the new key in front of the old keys minus it. -/
theorem peerKeys_store (p : List (Nat × MissionItem)) (it : MissionItem) :
    peerKeys (peerStore p it)
      = it.seq :: (peerKeys p).filter (fun k => !(k == it.seq)) := by
  have h := peerKeys_filter p it.seq
  simp only [peerStore, peerKeys, List.map_cons] at h ⊢
  rw [h]

/-- Index-keyed storage keeps the stored keys distinct. -/
theorem peerKeys_store_nodup (p : List (Nat × MissionItem)) (it : MissionItem)
    (h : (peerKeys p).Nodup) : (peerKeys (peerStore p it)).Nodup := by
  rw [peerKeys_store]
  refine List.nodup_cons.mpr ⟨?_, List.Nodup.filter _ h⟩
  intro hmem
  have := List.of_mem_filter hmem
  simp at this

/-- Storing an in-range item keeps every stored key in range. -/
theorem peerKeys_store_bound (p : List (Nat × MissionItem)) (it : MissionItem)
    (N : Nat) (hp : ∀ k ∈ peerKeys p, k < N) (hit : it.seq < N) :
    ∀ k ∈ peerKeys (peerStore p it), k < N := by
  intro k hk
  rw [peerKeys_store] at hk
  rcases List.mem_cons.mp hk with h | h
  · exact h ▸ hit
  · exact hp k (List.mem_of_mem_filter h)

/-- Looking up after a store: the stored index now answers with the stored
item, everything else is untouched. -/
theorem peerLookup_store (p : List (Nat × MissionItem)) (it : MissionItem)
    (i : Nat) :
    peerLookup (peerStore p it) i
      = if it.seq = i then some it else peerLookup p i := by
  by_cases h : it.seq = i
  · simp [peerLookup, peerStore, List.find?, h]
  · have hne : (it.seq == i) = false := by
      simpa using h
    have hfilter :
        List.find? (fun kv => kv.fst == i)
            (p.filter (fun kv => !(kv.fst == it.seq)))
          = List.find? (fun kv => kv.fst == i) p := by
      induction p with
      | nil => rfl
      | cons kv rest ih =>
          cases hk : (kv.fst == it.seq) with
          | true =>
              have hkv : kv.fst = it.seq := by simpa using hk
              have hki : (kv.fst == i) = false := by
                rw [hkv]
                simpa using h
              simp [List.filter_cons, hk, List.find?, hki, ih]
          | false =>
              cases hki : (kv.fst == i) with
              | true => simp [List.filter_cons, hk, List.find?, hki]
              | false => simp [List.filter_cons, hk, List.find?, hki, ih]
    simp [peerLookup, peerStore, List.find?, hne, h, hfilter]

/-- Lookup after storing a batch of canonical items (each sitting at its
own index of `items`): a requested index answers with the list's item. -/
theorem peerLookup_foldl (items : List MissionItem) :
    ∀ (ans : List MissionItem) (p : List (Nat × MissionItem)) (i : Nat),
      (∀ it ∈ ans, items[it.seq]? = some it) →
      peerLookup (ans.foldl peerStore p) i
        = if ans.any (fun it => it.seq == i) then items[i]?
          else peerLookup p i := by
  intro ans
  induction ans with
  | nil =>
      intro p i _
      simp
  | cons it rest ih =>
      intro p i hcan
      have hit : items[it.seq]? = some it := hcan it (by simp)
      have hrest : ∀ x ∈ rest, items[x.seq]? = some x :=
        fun x hx => hcan x (by simp [hx])
      rw [List.foldl_cons, ih (peerStore p it) i hrest]
      by_cases hany : rest.any (fun x => x.seq == i) = true
      · simp [hany]
      · simp only [Bool.not_eq_true] at hany
        by_cases hsi : it.seq = i
        · have hsome : items[i]? = some it := by rw [← hsi]; exact hit
          simp [hany, hsi, peerLookup_store, hsome]
        · have hne : (it.seq == i) = false := by simpa using hsi
          simp [hany, hne, peerLookup_store, hsi]

/-- Storing a batch keeps the keys distinct. -/
theorem peerKeys_foldl_nodup (ans : List MissionItem) :
    ∀ p, (peerKeys p).Nodup → (peerKeys (ans.foldl peerStore p)).Nodup := by
  induction ans with
  | nil => intro p h; exact h
  | cons it rest ih =>
      intro p h
      exact ih (peerStore p it) (peerKeys_store_nodup p it h)

/-- Storing a batch of in-range items keeps the keys in range. -/
theorem peerKeys_foldl_bound (N : Nat) (ans : List MissionItem)
    (hseq : ∀ it ∈ ans, it.seq < N) :
    ∀ p, (∀ k ∈ peerKeys p, k < N) →
      ∀ k ∈ peerKeys (ans.foldl peerStore p), k < N := by
  induction ans with
  | nil => intro p hp; exact hp
  | cons it rest ih =>
      intro p hp
      exact ih (fun x hx => hseq x (by simp [hx])) (peerStore p it)
        (peerKeys_store_bound p it N hp (hseq it (by simp)))

/-- A successful lookup witnesses the key. -/
theorem mem_peerKeys_of_lookup (p : List (Nat × MissionItem)) (i : Nat)
    (it : MissionItem) (h : peerLookup p i = some it) : i ∈ peerKeys p := by
  unfold peerLookup at h
  cases hf : p.find? (fun kv => kv.fst == i) with
  | none => rw [hf] at h; simp at h
  | some kv =>
      have hkv : kv.fst = i := by simpa using List.find?_some hf
      have hmem := List.mem_of_find?_eq_some hf
      exact hkv ▸ List.mem_map.mpr ⟨kv, hmem, rfl⟩

/-- A store with distinct keys, all below `N` and covering `0..N-1`, holds
exactly `N` entries. -/
theorem peer_length_eq (N : Nat) (p : List (Nat × MissionItem))
    (hnodup : (peerKeys p).Nodup)
    (hbound : ∀ k ∈ peerKeys p, k < N)
    (hcov : ∀ i, i < N → i ∈ peerKeys p) :
    p.length = N := by
  have h1 : (peerKeys p).length ≤ N := by
    have hsub : peerKeys p ⊆ List.range N :=
      fun k hk => List.mem_range.mpr (hbound k hk)
    simpa [List.length_range] using (hnodup.subperm hsub).length_le
  have h2 : N ≤ (peerKeys p).length := by
    have hsub : List.range N ⊆ peerKeys p :=
      fun i hi => hcov i (List.mem_range.mp hi)
    simpa [List.length_range] using ((List.nodup_range N).subperm hsub).length_le
  have h3 : (peerKeys p).length = p.length := by simp [peerKeys]
  omega

/-- The peer stores exactly the mission items of a message batch. -/
theorem peerIngest_map_missionItem (ans : List MissionItem) :
    ∀ p, peerIngest p (ans.map WireMsg.missionItem) = ans.foldl peerStore p := by
  induction ans with
  | nil => intro p; rfl
  | cons it rest ih =>
      intro p
      simpa [peerIngest, List.foldl_cons] using ih (peerStore p it)

/-- The download loop: against a peer whose stored mission answers each
index with the validated list's item, the engine accumulates the whole
list in order and resolves `Success`. -/
theorem downloadSteps_run (items : List MissionItem)
    (p : List (Nat × MissionItem))
    (hlook : ∀ i, i < items.length → peerLookup p i = items[i]?)
    (hseq : ∀ (j : Nat) (it : MissionItem), items[j]? = some it → it.seq = j) :
    ∀ fuel k e, k < items.length → items.length - k ≤ fuel →
      e.session = some (Session.down
        (DownState.receiving items.length k (items.take k)) maxRetries) →
      downloadSteps fuel p e = some (Result.Success, items) := by
  intro fuel
  induction fuel with
  | zero =>
      intro k e hk hfuel _
      omega
  | succ f ih =>
      intro k e hk hfuel hs
      have hgetk : items[k]? = some items[k] := List.getElem?_eq_getElem hk
      have hlk : peerLookup p k = some items[k] := by
        rw [hlook k hk, hgetk]
      have hseqk : items[k].seq = k := hseq k items[k] hgetk
      by_cases hlast : k + 1 = items.length
      · have hdone : handleDownloadItem e items[k]
            = ({ e with session := none },
               some (Result.Success, items.take k ++ [items[k]])) := by
          simp [handleDownloadItem, hs, hseqk, hlast]
        have htake : items.take k ++ [items[k]] = items := by
          have := List.take_concat_get items k hk
          simp only [List.concat_eq_append] at this
          rw [this, hlast, List.take_length]
        simp [downloadSteps, hs, hlk, hdone, htake]
      · have hstep : handleDownloadItem e items[k]
            = ({ e with
                  session := some (Session.down
                    (DownState.receiving items.length (k + 1)
                      (items.take k ++ [items[k]])) maxRetries)
                  wireLog := e.wireLog ++ [WireMsg.missionRequestItem (k + 1)] },
               none) := by
          simp [handleDownloadItem, hs, hseqk, hlast]
        have htake : items.take k ++ [items[k]] = items.take (k + 1) := by
          have := List.take_concat_get items k hk
          simpa only [List.concat_eq_append] using this
        have hnext : downloadSteps f p
            ({ e with
                  session := some (Session.down
                    (DownState.receiving items.length (k + 1)
                      (items.take k ++ [items[k]])) maxRetries)
                  wireLog := e.wireLog ++ [WireMsg.missionRequestItem (k + 1)] })
            = some (Result.Success, items) := by
          refine ih (k + 1) _ (by omega) (by omega) ?_
          simp [htake]
        rw [htake] at hstep hnext
        simp [downloadSteps, hs, hlk, hstep, hnext]

/-- The count message is ignored by the peer's item store. -/
theorem peerIngest_cons_count (p : List (Nat × MissionItem)) (n : Nat)
    (rest : List WireMsg) :
    peerIngest p (WireMsg.missionCount n :: rest) = peerIngest p rest := rfl

/-- Downloading from a peer whose stored mission answers every index of the
validated list resolves `Success` with exactly that list. -/
theorem downloadFrom_run (items : List MissionItem)
    (p : List (Nat × MissionItem)) (e : MissionEngine)
    (hs : e.session = none)
    (hlen : 0 < items.length)
    (hplen : p.length = items.length)
    (hlook : ∀ i, i < items.length → peerLookup p i = items[i]?)
    (hseq : ∀ (j : Nat) (it : MissionItem), items[j]? = some it → it.seq = j) :
    downloadFrom p e = some (Result.Success, items) := by
  have hne0 : ¬ p.length = 0 := by omega
  have hstart : startDownload e
      = ({ e with
            session := some (Session.down DownState.awaitingCount maxRetries)
            wireLog := e.wireLog ++ [WireMsg.missionRequestList] }, none) := by
    simp [startDownload, hs]
  have hcount : handleDownloadCount ({ e with
        session := some (Session.down DownState.awaitingCount maxRetries)
        wireLog := e.wireLog ++ [WireMsg.missionRequestList] }) p.length
      = ({ e with
            session := some (Session.down (DownState.receiving p.length 0 []) maxRetries)
            wireLog := (e.wireLog ++ [WireMsg.missionRequestList])
              ++ [WireMsg.missionRequestItem 0] }, none) := by
    simp [handleDownloadCount, hne0]
  have hloop : downloadSteps (p.length + 1) p ({ e with
        session := some (Session.down (DownState.receiving p.length 0 []) maxRetries)
        wireLog := (e.wireLog ++ [WireMsg.missionRequestList])
          ++ [WireMsg.missionRequestItem 0] })
      = some (Result.Success, items) := by
    refine downloadSteps_run items p hlook hseq (p.length + 1) 0 _ hlen (by omega) ?_
    simp [hplen]
  simp only [downloadFrom, hstart, hcount]
  exact hloop

/-- C1: for every valid list of N mission items, uploading the list to a
peer and then downloading from the same peer yields exactly N items whose
command, parameter, and position fields are bit-identical to the uploaded
set (parameters are raw bit patterns, so NaN sentinels survive unchanged
and are never coerced to zero), returned in ascending sequence order (the
returned list equals the uploaded one, whose sequence indices are 0..N-1
by validation) regardless of the order — out of order, duplicated, or with
stray out-of-range indices — in which the peer requested items during the
upload. -/
theorem upload_download_roundtrip (items : List MissionItem)
    (reqOrder : List Nat)
    (hval : validateMissionItems items = true)
    (hcov : ∀ i, i < items.length → i ∈ reqOrder) :
    roundTrip items reqOrder = some (Result.Success, items) := by
  have hord : seqsInOrder items 0 = true := by
    have h := hval
    simp only [validateMissionItems, Bool.and_eq_true] at h
    exact h.1.2
  have hlen : 0 < items.length := by
    have h := hval
    simp only [validateMissionItems, Bool.and_eq_true, Bool.not_eq_true'] at h
    have hne := h.1.1
    cases items with
    | nil => simp at hne
    | cons a l => simp
  have hseq : ∀ (j : Nat) (it : MissionItem), items[j]? = some it →
      it.seq = j := by
    intro j it h
    simpa using seqsInOrder_seq_eq items 0 j it hord h
  have h0 : startUpload initEngine items
      = ({ session := some (Session.up items maxRetries),
           wireLog := [WireMsg.missionCount items.length],
           lastSig := none, subscribers := [], notifLog := [] }, none) := by
    simp [startUpload, initEngine, hval]
  simp only [roundTrip, h0]
  set E2 := List.foldl handleItemRequest
      ({ session := some (Session.up items maxRetries),
         wireLog := [WireMsg.missionCount items.length],
         lastSig := none, subscribers := [], notifLog := [] } : MissionEngine)
      reqOrder with hE2
  obtain ⟨r2, hS, hW, hL, hSub, hN⟩ := foldl_handleItemRequest items reqOrder
      ({ session := some (Session.up items maxRetries),
         wireLog := [WireMsg.missionCount items.length],
         lastSig := none, subscribers := [], notifLog := [] }) maxRetries rfl
  rw [← hE2] at hS hW
  have hAck : handleUploadAck E2 MissionAckCode.accepted
      = ({ E2 with
            session := none
            lastSig := some (missionSig items)
            notifLog := E2.notifLog ++ E2.subscribers }, some Result.Success) := by
    simp [handleUploadAck, hS]
  simp only [hAck]
  have hw3 : ({ E2 with
      session := none
      lastSig := some (missionSig items)
      notifLog := E2.notifLog ++ E2.subscribers } : MissionEngine).wireLog
      = E2.wireLog := rfl
  have hP : peerIngest [] E2.wireLog
      = (answeredItems items reqOrder).foldl peerStore [] := by
    rw [hW]
    exact peerIngest_map_missionItem _ _
  have hcanon := answeredItems_canonical items reqOrder hord
  have hlookP : ∀ i, i < items.length →
      peerLookup ((answeredItems items reqOrder).foldl peerStore []) i
        = items[i]? := by
    intro i hi
    have hgi : items[i]? = some items[i] := List.getElem?_eq_getElem hi
    have hsi : items[i].seq = i := hseq i items[i] hgi
    have hin : items[i] ∈ answeredItems items reqOrder :=
      List.mem_filterMap.mpr ⟨i, hcov i hi, hgi⟩
    have hany : (answeredItems items reqOrder).any (fun it => it.seq == i)
        = true :=
      List.any_eq_true.mpr ⟨items[i], hin, by simp [hsi]⟩
    rw [peerLookup_foldl items (answeredItems items reqOrder) [] i hcanon]
    simp [hany]
  have hboundans : ∀ it ∈ answeredItems items reqOrder,
      it.seq < items.length := by
    intro it hit
    exact (List.getElem?_eq_some.mp (hcanon it hit)).1
  have hnodupP := peerKeys_foldl_nodup (answeredItems items reqOrder) []
      (by simp [peerKeys])
  have hboundP := peerKeys_foldl_bound items.length
      (answeredItems items reqOrder) hboundans [] (by simp [peerKeys])
  have hcovP : ∀ i, i < items.length →
      i ∈ peerKeys ((answeredItems items reqOrder).foldl peerStore []) := by
    intro i hi
    refine mem_peerKeys_of_lookup _ i items[i] ?_
    rw [hlookP i hi]
    exact List.getElem?_eq_getElem hi
  have hPlen : ((answeredItems items reqOrder).foldl peerStore []).length
      = items.length :=
    peer_length_eq items.length _ hnodupP hboundP hcovP
  rw [hw3, hP]
  exact downloadFrom_run items ((answeredItems items reqOrder).foldl peerStore [])
    ({ E2 with
        session := none
        lastSig := some (missionSig items)
        notifLog := E2.notifLog ++ E2.subscribers }) rfl hlen hPlen hlookP hseq

/-- Witness for C1 at the concrete two-item test mission (with NaN
sentinels in `param4` and `z`) and a duplicated, out-of-order request
order that also contains a stray out-of-range index. -/
theorem upload_download_roundtrip_witness :
    validateMissionItems witItems = true ∧
    roundTrip witItems [1, 0, 1, 5] = some (Result.Success, witItems) :=
  ⟨by decide,
   upload_download_roundtrip witItems [1, 0, 1, 5] (by decide) (by decide)⟩

/-! ## Mission-changed notification -/

/-- Once the stored signature equals the arriving one, any number of
repeated unsolicited signals leave the engine untouched. -/
theorem iterUnsolicited_suppressed (e : MissionEngine) (sig : Nat)
    (h : e.lastSig = some sig) : ∀ k, iterUnsolicited e sig k = e := by
  intro k
  induction k with
  | zero => rfl
  | succ m ih =>
      have hstep : handleUnsolicited e sig = e := by
        simp [handleUnsolicited, h]
      calc iterUnsolicited e sig (m + 1)
          = iterUnsolicited (handleUnsolicited e sig) sig m := rfl
        _ = iterUnsolicited e sig m := by rw [hstep]
        _ = e := ih

/-- C2: for every successful upload, the mission-changed notification
invokes every subscriber exactly once for that logical change (the
notification transcript grows by exactly the subscriber list, in which
each distinct subscriber occurs once), and repeated unsolicited peer
signals carrying the signature just stored in `ChangeNotificationState`
trigger no additional subscriber invocation. -/
theorem mission_changed_exactly_once (e : MissionEngine)
    (items : List MissionItem) (r : Nat)
    (hs : e.session = some (Session.up items r)) :
    (handleUploadAck e MissionAckCode.accepted).snd = some Result.Success ∧
    (handleUploadAck e MissionAckCode.accepted).fst.notifLog
      = e.notifLog ++ e.subscribers ∧
    (e.subscribers.Nodup → ∀ sub ∈ e.subscribers,
      (((handleUploadAck e MissionAckCode.accepted).fst.notifLog).drop
          e.notifLog.length).count sub = 1) ∧
    ∀ k, (iterUnsolicited (handleUploadAck e MissionAckCode.accepted).fst
        (missionSig items) k).notifLog
      = (handleUploadAck e MissionAckCode.accepted).fst.notifLog := by
  have hAck : handleUploadAck e MissionAckCode.accepted
      = ({ e with
            session := none
            lastSig := some (missionSig items)
            notifLog := e.notifLog ++ e.subscribers }, some Result.Success) := by
    simp [handleUploadAck, hs]
  refine ⟨by rw [hAck], by rw [hAck], ?_, ?_⟩
  · intro hnodup sub hsub
    rw [hAck]
    have hdrop : ((e.notifLog ++ e.subscribers).drop e.notifLog.length)
        = e.subscribers := List.drop_left _ _
    simp only [hdrop]
    exact List.count_eq_one_of_mem hnodup hsub
  · intro k
    rw [hAck]
    rw [iterUnsolicited_suppressed _ (missionSig items) rfl k]

/-- Witness for C2 at a concrete engine with two subscribers: the upload
acknowledgment resolves `Success`, both subscribers are invoked once, and
a repeated unchanged-signature signal re-fires nothing. -/
theorem mission_changed_exactly_once_witness :
    (handleUploadAck witEngineUp MissionAckCode.accepted).fst.notifLog
      = witEngineUp.notifLog ++ witEngineUp.subscribers ∧
    (((handleUploadAck witEngineUp MissionAckCode.accepted).fst.notifLog).drop
        witEngineUp.notifLog.length).count 7 = 1 ∧
    (iterUnsolicited (handleUploadAck witEngineUp MissionAckCode.accepted).fst
        (missionSig witItems) 5).notifLog
      = (handleUploadAck witEngineUp MissionAckCode.accepted).fst.notifLog :=
  ⟨(mission_changed_exactly_once witEngineUp witItems maxRetries rfl).2.1,
   (mission_changed_exactly_once witEngineUp witItems maxRetries rfl).2.2.1
     (by decide) 7 (by decide),
   (mission_changed_exactly_once witEngineUp witItems maxRetries rfl).2.2.2 5⟩

/-! ## Command protocol claims -/

/-- C3: for every command execution, over any trace of acknowledgment and
timer events the completion callback is invoked at most once, and whenever
the request reaches a resolved state the callback has been invoked exactly
once, with exactly the one `Result` of that resolution — never twice and
never with both a success and a failure. -/
theorem command_callback_exactly_once (n : Nat) (tr : List CmdEvent) :
    (cmdRun (CmdState.pending n) tr).snd.length ≤ 1 ∧
    ∀ r, (cmdRun (CmdState.pending n) tr).fst = CmdState.resolved r →
      (cmdRun (CmdState.pending n) tr).snd = [r] := by
  rcases cmdRun_pending_cases tr n with ⟨m, hm⟩ | ⟨r, hr⟩
  · refine ⟨by rw [hm]; simp, ?_⟩
    intro r h
    rw [hm] at h
    simp at h
  · refine ⟨by rw [hr]; simp, ?_⟩
    intro r2 h
    rw [hr] at h
    simp at h
    rw [hr, h]

/-- Witness for C3: a retried then acknowledged command fires its callback
exactly once with `Success`. -/
theorem command_callback_exactly_once_witness :
    (cmdRun (CmdState.pending 3)
        [CmdEvent.timeout, CmdEvent.ack CmdAckCode.accepted]).fst
      = CmdState.resolved Result.Success ∧
    (cmdRun (CmdState.pending 3)
        [CmdEvent.timeout, CmdEvent.ack CmdAckCode.accepted]).snd
      = [Result.Success] :=
  ⟨by decide,
   (command_callback_exactly_once 3
       [CmdEvent.timeout, CmdEvent.ack CmdAckCode.accepted]).2
     Result.Success (by decide)⟩

/-- C5: a command executed while no peer is connected or while the
autopilot-present flag is unset fails immediately with `NoSystem` and
performs no network I/O: the list of messages handed to the transport is
empty. -/
theorem no_system_guard (sys : SystemState) (cmd retries : Nat)
    (h : sys.peerConnected = false ∨ sys.hasAutopilot = false) :
    executeCommand sys cmd retries = ([], CmdStart.failed Result.NoSystem) := by
  rcases h with h | h <;> simp [executeCommand, h]

/-- Witness for C5 with a disconnected peer (command 400 is
MAV_CMD_COMPONENT_ARM_DISARM, the arm command). -/
theorem no_system_guard_witness :
    executeCommand { peerConnected := false, hasAutopilot := true } 400 3
      = ([], CmdStart.failed Result.NoSystem) :=
  no_system_guard { peerConnected := false, hasAutopilot := true } 400 3
    (Or.inl rfl)

/-- C9: the blocking wrapper returns exactly the `Result` the async
callback carried — it returns a value precisely when the callback has
fired, with that value — and on any trace at least one event longer than
the retry budget (the protocol's own retry/timeout bound, since the wait
timer always fires absent an ack) it does return, so it never blocks
beyond the bound. -/
theorem blocking_bridge (retries : Nat) (tr : List CmdEvent) :
    (∀ r, blockingExecute retries tr = some r ↔
        (cmdRun (CmdState.pending retries) tr).snd = [r]) ∧
    (retries + 1 ≤ tr.length →
      ∃ r, blockingExecute retries tr = some r ∧
        (cmdRun (CmdState.pending retries) tr).fst = CmdState.resolved r) := by
  constructor
  · intro r
    rcases cmdRun_pending_cases tr retries with ⟨m, hm⟩ | ⟨r2, hr⟩
    · constructor
      · intro h
        simp only [blockingExecute, hm] at h
        simp at h
      · intro h
        rw [hm] at h
        simp at h
    · constructor
      · intro h
        simp only [blockingExecute, hr] at h
        simp at h
        rw [hr, h]
      · intro h
        rw [hr] at h
        simp at h
        simp only [blockingExecute, hr, h]
        rfl
  · intro hlen
    rcases cmdRun_long_trace_resolves tr retries hlen with ⟨r, hr⟩
    refine ⟨r, ?_, by rw [hr]⟩
    simp only [blockingExecute, hr]
    rfl

/-- Witness for C9: with the baseline budget of 3 retries, four straight
timer expirations make the blocking call return, with `Timeout`. -/
theorem blocking_bridge_witness :
    blockingExecute 3
        [CmdEvent.timeout, CmdEvent.timeout, CmdEvent.timeout, CmdEvent.timeout]
      = some Result.Timeout ∧
    (∃ r, blockingExecute 3
        [CmdEvent.timeout, CmdEvent.timeout, CmdEvent.timeout, CmdEvent.timeout]
      = some r ∧
      (cmdRun (CmdState.pending 3)
        [CmdEvent.timeout, CmdEvent.timeout, CmdEvent.timeout, CmdEvent.timeout]).fst
      = CmdState.resolved r) :=
  ⟨((blocking_bridge 3
      [CmdEvent.timeout, CmdEvent.timeout, CmdEvent.timeout, CmdEvent.timeout]).1
      Result.Timeout).mpr (by decide),
   (blocking_bridge 3
      [CmdEvent.timeout, CmdEvent.timeout, CmdEvent.timeout, CmdEvent.timeout]).2
     (by decide)⟩

/-! ## Session guards, validation, duplicates, cancellation -/

/-- C4: while a transfer session is active for the peer, a second upload or
download call fails immediately with `Busy`, is not queued (the engine
state, session included, is returned unchanged), and emits zero additional
wire messages (the transport transcript is unchanged). -/
theorem busy_guard (e : MissionEngine) (s : Session)
    (items : List MissionItem) (hs : e.session = some s) :
    startUpload e items = (e, some Result.Busy) ∧
    startDownload e = (e, some Result.Busy) ∧
    (startUpload e items).fst.wireLog = e.wireLog ∧
    (startDownload e).fst.wireLog = e.wireLog := by
  have h1 : startUpload e items = (e, some Result.Busy) := by
    simp [startUpload, hs]
  have h2 : startDownload e = (e, some Result.Busy) := by
    simp [startDownload, hs]
  exact ⟨h1, h2, by rw [h1], by rw [h2]⟩

/-- Witness for C4 on an engine amid an upload of the witness mission. -/
theorem busy_guard_witness :
    startUpload witEngineUp [witItem0] = (witEngineUp, some Result.Busy) ∧
    startDownload witEngineUp = (witEngineUp, some Result.Busy) ∧
    (startUpload witEngineUp [witItem0]).fst.wireLog = witEngineUp.wireLog ∧
    (startDownload witEngineUp).fst.wireLog = witEngineUp.wireLog :=
  busy_guard witEngineUp (Session.up witItems maxRetries) [witItem0] rfl

/-- C6: an upload whose supplied list is empty, or whose sequence indices
are not exactly 0..N-1 in order, or in which the number of navigation
items carrying the "current" flag is not exactly one, fails with
`InvalidArgument` synchronously — the result is produced by the call
itself on the same dispatch tick — and with no network contact: the engine
(its transport transcript included) is returned unchanged. -/
theorem invalid_argument_guard (e : MissionEngine) (items : List MissionItem)
    (hidle : e.session = none)
    (hbad : items = [] ∨ seqsInOrder items 0 = false ∨
      countCurrentNav items ≠ 1) :
    startUpload e items = (e, some Result.InvalidArgument) := by
  have hv : validateMissionItems items = false := by
    cases hcase : validateMissionItems items
    · rfl
    · exfalso
      simp only [validateMissionItems, Bool.and_eq_true, Bool.not_eq_true',
        beq_iff_eq] at hcase
      rcases hbad with h | h | h
      · rw [h] at hcase
        simp at hcase
      · exact absurd hcase.1.2 (by simp [h])
      · exact h hcase.2
  simp [startUpload, hidle, hv]

/-- Witness for C6: the empty list is rejected by a fresh engine. -/
theorem invalid_argument_guard_witness :
    startUpload initEngine [] = (initEngine, some Result.InvalidArgument) :=
  invalid_argument_guard initEngine [] rfl (Or.inl rfl)

/-- C7: during an upload, any in-range item request — out of order or a
duplicate of an already-answered index — is answered with the item for
that sequence index; it is never treated as an error and never aborts the
transfer (the upload session stays alive), and re-delivering the same
answer to the peer's index-keyed store changes nothing, so no duplicate
stored item ever arises (distinct keys stay distinct). -/
theorem duplicate_request_tolerated (e : MissionEngine)
    (items : List MissionItem) (r s : Nat) (it : MissionItem)
    (p : List (Nat × MissionItem))
    (hs : e.session = some (Session.up items r))
    (hget : items[s]? = some it) :
    (handleItemRequest e s).wireLog = e.wireLog ++ [WireMsg.missionItem it] ∧
    (handleItemRequest e s).session = some (Session.up items maxRetries) ∧
    peerStore (peerStore p it) it = peerStore p it ∧
    ((peerKeys p).Nodup → (peerKeys (peerStore (peerStore p it) it)).Nodup) := by
  have hstep := handleItemRequest_hit e items r s it hs hget
  have hidem : peerStore (peerStore p it) it = peerStore p it := by
    simp [peerStore, List.filter_cons, List.filter_filter]
  refine ⟨by rw [hstep], by rw [hstep], hidem, ?_⟩
  intro hn
  exact peerKeys_store_nodup _ it (peerKeys_store_nodup p it hn)

/-- Witness for C7: the witness engine re-answers a duplicate request for
index 0 and the peer's store is unchanged by the duplicate. -/
theorem duplicate_request_tolerated_witness :
    (handleItemRequest witEngineUp 0).wireLog
      = witEngineUp.wireLog ++ [WireMsg.missionItem witItem0] ∧
    (handleItemRequest witEngineUp 0).session
      = some (Session.up witItems maxRetries) ∧
    peerStore (peerStore (peerStore [] witItem0) witItem0) witItem0
      = peerStore (peerStore [] witItem0) witItem0 ∧
    ((peerKeys (peerStore [] witItem0)).Nodup →
      (peerKeys (peerStore (peerStore (peerStore [] witItem0) witItem0)
        witItem0)).Nodup) :=
  duplicate_request_tolerated witEngineUp witItems maxRetries 0 witItem0
    (peerStore [] witItem0) rfl (by decide)

/-- C8: cancelling an in-flight transfer (the higher-level clear-mission
path) destroys the session — and with it every pending per-item timer,
which lives in the session — and resolves the outstanding callback with
`Cancelled`, not `Timeout` nor `Success` and never silently dropped; the
session slot is free again immediately, so a new valid call on the very
next operation of the same dispatch tick is accepted rather than refused
`Busy`. -/
theorem cancel_resolves_cancelled (e : MissionEngine) (s : Session)
    (hs : e.session = some s) :
    cancelTransfer e = ({ e with session := none }, some Result.Cancelled) ∧
    (cancelTransfer e).snd ≠ some Result.Timeout ∧
    (cancelTransfer e).snd ≠ some Result.Success ∧
    (cancelTransfer e).fst.session = none ∧
    ∀ items, validateMissionItems items = true →
      (startUpload (cancelTransfer e).fst items).snd = none := by
  have h1 : cancelTransfer e
      = ({ e with session := none }, some Result.Cancelled) := by
    simp [cancelTransfer, hs]
  refine ⟨h1, by simp [h1], by simp [h1], by simp [h1], ?_⟩
  intro items hv
  rw [h1]
  simp [startUpload, hv]

/-- Witness for C8: cancelling the witness upload resolves `Cancelled` and
an immediate re-upload of the witness mission is accepted. -/
theorem cancel_resolves_cancelled_witness :
    cancelTransfer witEngineUp
      = ({ witEngineUp with session := none }, some Result.Cancelled) ∧
    (startUpload (cancelTransfer witEngineUp).fst witItems).snd = none :=
  ⟨(cancel_resolves_cancelled witEngineUp (Session.up witItems maxRetries)
      rfl).1,
   (cancel_resolves_cancelled witEngineUp (Session.up witItems maxRetries)
      rfl).2.2.2.2 witItems (by decide)⟩

/-! ## No notification before the first change -/

/-- A dispatch step that is not a change trigger leaves the notification
transcript untouched. -/
theorem mstep_notifLog (e : MissionEngine) (ev : MEvent)
    (h : isChangeTrigger ev = false) : (mstep e ev).notifLog = e.notifLog := by
  obtain ⟨sess, w, l, subs, n⟩ := e
  cases ev with
  | subscribe sub => rfl
  | connect => rfl
  | uploadCall items =>
      cases sess with
      | none =>
          simp only [mstep, startUpload]
          split <;> rfl
      | some s => rfl
  | downloadCall => cases sess <;> rfl
  | itemRequest s =>
      cases sess with
      | none => rfl
      | some ss =>
          cases ss with
          | up items r =>
              simp only [mstep, handleItemRequest]
              cases items[s]? <;> rfl
          | down d r => rfl
  | uploadAck c => simp [isChangeTrigger] at h
  | downloadCount nn =>
      cases sess with
      | none => rfl
      | some ss =>
          cases ss with
          | up items r => rfl
          | down d r =>
              cases d with
              | awaitingCount =>
                  simp only [mstep, handleDownloadCount]
                  split <;> rfl
              | receiving t k acc => rfl
  | downloadItem it =>
      cases sess with
      | none => rfl
      | some ss =>
          cases ss with
          | up items r => rfl
          | down d r =>
              cases d with
              | awaitingCount => rfl
              | receiving t k acc =>
                  simp only [mstep, handleDownloadItem]
                  split
                  · split <;> rfl
                  · rfl
  | unsolicited sig => simp [isChangeTrigger] at h
  | cancel => cases sess <;> rfl
  | timerFire =>
      cases sess with
      | none => rfl
      | some ss =>
          cases ss with
          | up items r => cases r <;> rfl
          | down d r => cases r <;> rfl

/-- A whole trace without change triggers preserves the notification
transcript. -/
theorem foldl_mstep_notifLog (tr : List MEvent) :
    ∀ e, (∀ ev ∈ tr, isChangeTrigger ev = false) →
      (tr.foldl mstep e).notifLog = e.notifLog := by
  induction tr with
  | nil =>
      intro e _
      rfl
  | cons ev rest ih =>
      intro e hh
      rw [List.foldl_cons, ih (mstep e ev) (fun x hx => hh x (by simp [hx]))]
      exact mstep_notifLog e ev (hh ev (by simp))

/-- C10: after `subscribe_mission_changed` registers a callback, that
callback is not invoked before the first logical mission change: an engine
processing any dispatch trace free of change triggers — so in particular
one consisting only of subscriptions and peer connections — has delivered
no notification at all. -/
theorem no_notification_before_change (tr : List MEvent)
    (h : ∀ ev ∈ tr, isChangeTrigger ev = false) :
    (tr.foldl mstep initEngine).notifLog = [] := by
  rw [foldl_mstep_notifLog tr initEngine h]
  rfl

/-- Witness for C10: subscribing and connecting alone trigger nothing. -/
theorem no_notification_before_change_witness :
    (([MEvent.subscribe 1, MEvent.connect, MEvent.uploadCall witItems,
        MEvent.itemRequest 0] : List MEvent).foldl mstep initEngine).notifLog
      = [] :=
  no_notification_before_change
    [MEvent.subscribe 1, MEvent.connect, MEvent.uploadCall witItems,
      MEvent.itemRequest 0] (by decide)

end Mavsdk
